import Mathlib

/-!
Shallow embedding of `src/pagination.py` (planet_overlap).

Conventions of the embedding:
* Dates are modelled at day granularity as integers (day numbers); `datetime`
  subtraction `(end - start).days` becomes integer subtraction, and
  `timedelta(days = k)` becomes `+ k`.
* Python floats are modelled as rationals.
* Shapely geometry is an external collaborator; the operations `pagination.py`
  uses (`bounds`, `box`, `intersection`, `area`) are abstracted as a `GeomOps`
  structure, with the point set of a geometry exposed as `carrier` so that
  containment claims can be stated.  A concrete instance (`RectOps`,
  axis-aligned rational boxes) is provided for evaluation.
* The network is a deterministic trace oracle `Env`: for the `i`-th
  tile-by-interval pair (0-based, in processing order) it gives the outcome of
  each POST attempt (`Env.posts i attempt`) and the sequence of outcomes of the
  GET requests of the pagination loop (`Env.pages i`).  A `PostResult` is a
  network-level failure (`requests.RequestException` raised by `session.post`)
  or an HTTP response with a 2xx flag (`raise_for_status` raises iff it is
  false) and the optional `id` member of its JSON body (`none` means
  `response.json()["id"]` raises).  A `PageResult` is either an exception while
  fetching/decoding a page or a decoded page; an exhausted page trace is read
  as a fetch error.  (A server that answers every page with a next cursor makes
  the source loop forever; such non-terminating runs are outside the model.)
* `print` and `time.sleep` have no semantic content and are dropped.
* `item_types` and `page_size` only shape the outgoing payload and URL, which
  the trace oracle abstracts over, so they are omitted.
* `src/filters.py` is not part of the sources; `build_filters` is modelled from
  the spec (see its doc comment).
-/

/-- Configuration threshold `SPATIAL_TILE_AREA_THRESHOLD_KM2 = 50000` from
`pagination.py`. -/
def SPATIAL_TILE_AREA_THRESHOLD_KM2 : ℚ := 50000

/-- Configuration threshold `TEMPORAL_TILE_DAYS_THRESHOLD = 30` from
`pagination.py`. -/
def TEMPORAL_TILE_DAYS_THRESHOLD : ℕ := 30

/-- Configuration constant `MAX_RETRIES = 5` from `pagination.py`. -/
def MAX_RETRIES : ℕ := 5

/-- Abstract interface of the shapely operations used by `pagination.py`:
`geom.bounds` (as `(minx, miny, maxx, maxy)`), `shapely.geometry.box`,
`a.intersection(b)` and `geom.area`.  `carrier` is the point set of a
geometry, used to state containment properties. -/
structure GeomOps (G : Type) where
  bounds : G → ℚ × ℚ × ℚ × ℚ
  box : ℚ → ℚ → ℚ → ℚ → G
  inter : G → G → G
  area : G → ℚ
  carrier : G → Set (ℚ × ℚ)

variable {G : Type}

/-- Embedding of `tile_aoi` (pagination.py lines 28-57): lay a
`tile_size_deg` grid over the AOI's bounding box (`math.ceil((max-min)/size)`
steps per axis, cells clipped to the box), intersect each cell with the AOI
and keep intersections of strictly positive area, in `i`-outer `j`-inner
order. -/
def tile_aoi (ops : GeomOps G) (aoi : G) (tile_size_deg : ℚ) : List G :=
  let b := ops.bounds aoi
  let minx := b.1
  let miny := b.2.1
  let maxx := b.2.2.1
  let maxy := b.2.2.2
  let x_steps := (⌈(maxx - minx) / tile_size_deg⌉).toNat
  let y_steps := (⌈(maxy - miny) / tile_size_deg⌉).toNat
  (List.range x_steps).flatMap fun i =>
    (List.range y_steps).flatMap fun j =>
      let tile := ops.box (minx + i * tile_size_deg) (miny + j * tile_size_deg)
        (min (minx + (i + 1) * tile_size_deg) maxx)
        (min (miny + (j + 1) * tile_size_deg) maxy)
      let intersection := ops.inter tile aoi
      if 0 < ops.area intersection then [intersection] else []

/-- Embedding of the `while current_start <= end` loop of `tile_dates`
(pagination.py lines 79-85): `current_end = min(current_start + (max_days-1)
days, end)`, append `(current_start, current_end)`, continue from
`current_end + 1 day`.  The guard also requires `1 ≤ m` because with
`max_days = 0` the source loop does not terminate. -/
def slice_loop (m : ℕ) (e cs : ℤ) : List (ℤ × ℤ) :=
  if h : cs ≤ e ∧ 1 ≤ m then
    (cs, min (cs + m - 1) e) :: slice_loop m e (min (cs + m - 1) e + 1)
  else []
termination_by (e + 1 - cs).toNat
decreasing_by
  have h1 : min (cs + (m : ℤ) - 1) e ≤ e := min_le_right _ _
  have h2 : cs ≤ min (cs + (m : ℤ) - 1) e := le_min (by omega) h.1
  omega

/-- Embedding of `tile_dates` (pagination.py lines 63-85): if
`(end - start).days + 1 <= max_days` return the single interval, otherwise
run the slicing loop.  `start`/`end` are day numbers. -/
def tile_dates (start stop : ℤ) (max_days : ℕ) : List (ℤ × ℤ) :=
  if stop - start + 1 ≤ (max_days : ℤ) then [(start, stop)]
  else slice_loop max_days stop start

/-- One item of a decoded `features` array.  Each field is `none` when the
corresponding key is missing from the feature dict (so that subscripting it
raises `KeyError`).  Geometry and property payloads are opaque strings since
the source passes them through untouched. -/
structure Feature where
  id? : Option String
  geometry? : Option String
  properties? : Option String
deriving DecidableEq

/-- One decoded results page.  `features?` is `none` when the `features` key
is missing; `links?` is `none` when `_links` is missing, `some none` when
`_links` has no `_next`, and `some (some u)` when `_links._next = u`. -/
structure Page where
  features? : Option (List Feature)
  links? : Option (Option String)
deriving DecidableEq

/-- Outcome of one GET of the pagination loop: an exception while fetching or
JSON-decoding the page, or a decoded page. -/
inductive PageResult where
  | fetchRaise
  | page (p : Page)
deriving DecidableEq

/-- Outcome of one `session.post`: a network-level `RequestException` (no
response object), or a response with its 2xx flag and the optional `id`
member of its JSON body. -/
inductive PostResult where
  | netErr
  | resp (ok2xx : Bool) (bodyId? : Option String)
deriving DecidableEq

/-- Deterministic network trace: POST outcomes per (pair, attempt) and the
page-GET outcome sequence per pair. -/
structure Env where
  posts : ℕ → ℕ → PostResult
  pages : ℕ → List PageResult

/-- The run-wide accumulators `ids`, `geometries`, `properties` of
`fetch_planet_data`. -/
structure Inventory where
  ids : List String
  geometries : List String
  properties : List String
deriving DecidableEq

/-- Semantics of a Python list comprehension `[g(f) for f in fs]` whose body
subscripts a dict: it yields the whole list, or raises (yielding nothing) as
soon as one element lacks the key. -/
def optMap (g : Feature → Option String) : List Feature → Option (List String)
  | [] => some []
  | f :: t =>
    match g f, optMap g t with
    | some b, some bs => some (b :: bs)
    | _, _ => none

/-- Embedding of the `while next_url:` pagination loop (pagination.py lines
166-172) run against the trace of GET outcomes.  Returns the accumulators,
the number of page requests made, and whether the loop ended by raising an
exception (caught by the enclosing handler) rather than by a page without a
(truthy) `_next` cursor.  Note the three `+=` lines run one after the other,
so a raising comprehension leaves the earlier accumulators extended. -/
def page_loop : Inventory → List PageResult → Inventory × ℕ × Bool
  | st, [] => (st, 0, true)
  | st, PageResult.fetchRaise :: _ => (st, 1, true)
  | st, PageResult.page p :: rest =>
    match p.features? with
    | none => (st, 1, true)
    | some fs =>
      match optMap (fun f => f.id?) fs with
      | none => (st, 1, true)
      | some newIds =>
        let st1 : Inventory := ⟨st.ids ++ newIds, st.geometries, st.properties⟩
        match optMap (fun f => f.geometry?) fs with
        | none => (st1, 1, true)
        | some newGs =>
          let st2 : Inventory := ⟨st1.ids, st1.geometries ++ newGs, st1.properties⟩
          match optMap (fun f => f.properties?) fs with
          | none => (st2, 1, true)
          | some newPs =>
            let st3 : Inventory := ⟨st2.ids, st2.geometries, st2.properties ++ newPs⟩
            match p.links? with
            | none => (st3, 1, true)
            | some none => (st3, 1, false)
            | some (some nextUrl) =>
              if nextUrl = "" then (st3, 1, false)
              else
                let r := page_loop st3 rest
                (r.1, r.2.1 + 1, r.2.2)

/-- Embedding of the `for attempt in range(MAX_RETRIES)` retry loop
(pagination.py lines 151-159).  The first component of the state is the
`response` variable: it starts as `None` and is reassigned whenever
`session.post` returns an HTTP response — including a non-2xx one, since the
assignment happens before `raise_for_status()`.  Returns the final value of
`response` and the number of POST attempts made. -/
def retry_go (posts : ℕ → PostResult) (response : Option (Bool × Option String))
    (i : ℕ) : ℕ → Option (Bool × Option String) × ℕ
  | 0 => (response, i)
  | fuel + 1 =>
    match posts i with
    | PostResult.netErr => retry_go posts response (i + 1) fuel
    | PostResult.resp ok idF =>
      if ok then (some (ok, idF), i + 1)
      else retry_go posts (some (ok, idF)) (i + 1) fuel

/-- Outcome bookkeeping for one tile-by-interval pair: `skipped` is the
`response is None` branch (line 160-162), `errored` means the enclosing
`except Exception` handler fired, `completed` means the pagination loop ended
normally. -/
inductive PairOutcome where
  | skipped
  | errored
  | completed
deriving DecidableEq

/-- Observable record of one tile-by-interval pair: POST attempts made, page
requests made, how the pair ended, and the accumulator state when it ended. -/
structure PairRecord where
  attempts : ℕ
  pageRequests : ℕ
  outcome : PairOutcome
  stAfter : Inventory
deriving DecidableEq

/-- Embedding of the body of the `try:` block of `fetch_planet_data`
(pagination.py lines 150-175) for one tile-by-interval pair: run the retry
loop; if `response is None` skip the pair; otherwise read
`response.json()["id"]` (raising, hence `errored`, when the body has no id)
and walk the result pages. -/
def run_pair (r : ℕ) (posts : ℕ → PostResult) (pages : List PageResult)
    (st : Inventory) : Inventory × PairRecord :=
  match retry_go posts none 0 r with
  | (none, att) => (st, ⟨att, 0, PairOutcome.skipped, st⟩)
  | (some response, att) =>
    match response.2 with
    | none => (st, ⟨att, 0, PairOutcome.errored, st⟩)
    | some _ =>
      let r := page_loop st pages
      (r.1, ⟨att, r.2.1, if r.2.2 then PairOutcome.errored else PairOutcome.completed, r.1⟩)

/-- Errors that can escape `fetch_planet_data`: the `IndexError` of
`date_ranges[0]` on an empty list, and the filter-validation error of
`build_filters` (see `build_filters`). -/
inductive RunError where
  | indexError
  | invalidRange
deriving DecidableEq

/-- Filter tree, the value built by `build_filters`.  Modelled from the spec:
an AND-combinator node wrapping a geometry-intersects node, a date-range node
with inclusive bounds, a cloud-cover upper-bound node and a sun-elevation
lower-bound node (spec sections 4.3 and 6). -/
inductive PlanetFilter (G : Type) where
  | geomF (tile : G)
  | dateF (gte lte : ℤ)
  | cloudF (lte : ℚ)
  | sunF (gte : ℚ)
  | andF (config : List (PlanetFilter G))

/-- Modelled from the spec: `filters.build_filters` (src/filters.py is not
among the sources; only its call sites and tests are).  Per spec section 4.3
it combines, for each tile-interval pair, four constraints under a single
AND node, and fails with `InvalidRangeError` when `max_cloud` is outside
`[0, 1]` or `min_sun_angle` is outside a sane angular range (taken to be
`[-90, 90]` degrees).  Building is pure and deterministic. -/
def build_filters (aois : List G) (date_ranges : List (ℤ × ℤ))
    (max_cloud min_sun_angle : ℚ) : Except RunError (List (PlanetFilter G)) :=
  if max_cloud < 0 ∨ 1 < max_cloud ∨ min_sun_angle < -90 ∨ 90 < min_sun_angle then
    Except.error RunError.invalidRange
  else
    Except.ok ((aois.zip date_ranges).map fun td =>
      PlanetFilter.andF [PlanetFilter.geomF td.1, PlanetFilter.dateF td.2.1 td.2.2,
        PlanetFilter.cloudF max_cloud, PlanetFilter.sunF min_sun_angle])

/-- Bounding-box area in km² under the flat approximation
(pagination.py line 125): `(maxx - minx) * (maxy - miny) * 111 ** 2`. -/
def approx_area_km2 (ops : GeomOps G) (aoi : G) : ℚ :=
  let b := ops.bounds aoi
  (b.2.2.1 - b.1) * (b.2.2.2 - b.2.1) * 111 ^ 2

/-- The spatial-tiling decision of `fetch_planet_data` (pagination.py lines
125-129): tile only when the approximate area exceeds the threshold,
otherwise use the AOI itself as the single tile. -/
def tiles_for (ops : GeomOps G) (aoi : G) : List G :=
  if SPATIAL_TILE_AREA_THRESHOLD_KM2 < approx_area_km2 ops aoi then tile_aoi ops aoi 1
  else [aoi]

/-- Threaded state of the run: accumulators, `request_count`, and the pair
records observed so far. -/
structure RunAcc where
  st : Inventory
  cnt : ℕ
  recs : List PairRecord
deriving DecidableEq

/-- One tile-by-interval pair of the cross-product loop (pagination.py lines
133-175): increment `request_count`, call `build_filters` — note this call
stands before the `try:` block, so its exception aborts the whole run — then
run the submission/pagination body.  The pair is numbered `acc.cnt`
(0-based) for the trace oracle. -/
def step_pair (env : Env) (max_cloud min_sun_angle : ℚ) (tile : G) (iv : ℤ × ℤ)
    (acc : RunAcc) : Except (RunError × RunAcc) RunAcc :=
  let cnt2 := acc.cnt + 1
  match build_filters [tile] [iv] max_cloud min_sun_angle with
  | Except.error e => Except.error (e, ⟨acc.st, cnt2, acc.recs⟩)
  | Except.ok _ =>
    let r := run_pair MAX_RETRIES (env.posts acc.cnt) (env.pages acc.cnt) acc.st
    Except.ok ⟨r.1, cnt2, acc.recs ++ [r.2]⟩

/-- The `for start, end in tile_dates(...)` loop over the intervals of one
tile. -/
def run_ivs (env : Env) (max_cloud min_sun_angle : ℚ) (tile : G) :
    List (ℤ × ℤ) → RunAcc → Except (RunError × RunAcc) RunAcc
  | [], acc => Except.ok acc
  | iv :: rest, acc =>
    match step_pair env max_cloud min_sun_angle tile iv acc with
    | Except.error e => Except.error e
    | Except.ok acc2 => run_ivs env max_cloud min_sun_angle tile rest acc2

/-- One tile of the `for tile in tiles` loop (pagination.py lines 131-132):
the interval list is `tile_dates(date_ranges[0][0], date_ranges[-1][1])`,
evaluated afresh per tile; on an empty `date_ranges` the subscript raises
`IndexError`. -/
def run_tile (env : Env) (max_cloud min_sun_angle : ℚ) (date_ranges : List (ℤ × ℤ))
    (tile : G) (acc : RunAcc) : Except (RunError × RunAcc) RunAcc :=
  match date_ranges with
  | [] => Except.error (RunError.indexError, acc)
  | d0 :: rest =>
    run_ivs env max_cloud min_sun_angle tile
      (tile_dates d0.1 ((d0 :: rest).getLast (List.cons_ne_nil d0 rest)).2
        TEMPORAL_TILE_DAYS_THRESHOLD)
      acc

/-- The `for tile in tiles` loop. -/
def run_tiles (env : Env) (max_cloud min_sun_angle : ℚ) (date_ranges : List (ℤ × ℤ)) :
    List G → RunAcc → Except (RunError × RunAcc) RunAcc
  | [], acc => Except.ok acc
  | t :: ts, acc =>
    match run_tile env max_cloud min_sun_angle date_ranges t acc with
    | Except.error e => Except.error e
    | Except.ok acc2 => run_tiles env max_cloud min_sun_angle date_ranges ts acc2

/-- The outer `for aoi in aois` loop (pagination.py lines 122-131), with the
per-AOI spatial-tiling decision. -/
def run_aois (ops : GeomOps G) (env : Env) (max_cloud min_sun_angle : ℚ)
    (date_ranges : List (ℤ × ℤ)) : List G → RunAcc → Except (RunError × RunAcc) RunAcc
  | [], acc => Except.ok acc
  | a :: more, acc =>
    match run_tiles env max_cloud min_sun_angle date_ranges (tiles_for ops a) acc with
    | Except.error e => Except.error e
    | Except.ok acc2 => run_aois ops env max_cloud min_sun_angle date_ranges more acc2

/-- What a run of `fetch_planet_data` produces: the returned triple (or the
escaped exception), the final `request_count`, the precomputed
`total_requests = len(aois) * len(date_ranges)` (line 119), and the pair
records. -/
structure RunResult where
  result : Except RunError Inventory
  requestCount : ℕ
  totalRequests : ℕ
  records : List PairRecord

/-- Embedding of `fetch_planet_data` (pagination.py lines 91-176) against a
network trace. -/
def fetch_planet_data (ops : GeomOps G) (env : Env) (aois : List G)
    (date_ranges : List (ℤ × ℤ)) (max_cloud min_sun_angle : ℚ) : RunResult :=
  let total := aois.length * date_ranges.length
  match run_aois ops env max_cloud min_sun_angle date_ranges aois ⟨⟨[], [], []⟩, 0, []⟩ with
  | Except.ok acc => ⟨Except.ok acc.st, acc.cnt, total, acc.recs⟩
  | Except.error (e, acc) => ⟨Except.error e, acc.cnt, total, acc.recs⟩

/-! ## Concrete instances for evaluation -/

/-- Axis-aligned rational rectangles `(minx, miny, maxx, maxy)`. -/
abbrev Rect := ℚ × ℚ × ℚ × ℚ

/-- The rectangle geometry model: a concrete `GeomOps` instance on which the
embedding evaluates.  Intersection clamps the bounds, area is clamped
width times height, the carrier is the closed box. -/
def RectOps : GeomOps Rect where
  bounds r := r
  box a b c d := (a, b, c, d)
  inter r s := (max r.1 s.1, max r.2.1 s.2.1, min r.2.2.1 s.2.2.1, min r.2.2.2 s.2.2.2)
  area r := max 0 (r.2.2.1 - r.1) * max 0 (r.2.2.2 - r.2.1)
  carrier r := {q | r.1 ≤ q.1 ∧ r.2.1 ≤ q.2 ∧ q.1 ≤ r.2.2.1 ∧ q.2 ≤ r.2.2.2}

/-- A small AOI: the unit square, approximate area `12321 km²`, below the
spatial threshold. -/
def aoi0 : Rect := (0, 0, 1, 1)

/-- A feature carrying all three keys. -/
def goodFeature : Feature := ⟨some "a", some "ga", some "pa"⟩

/-- A malformed feature: it has `id` and `properties` but no `geometry`. -/
def tornFeature : Feature := ⟨some "b", none, some "pb"⟩

/-- A page with the given features and no `_next` cursor. -/
def lastPage (fs : List Feature) : Page := ⟨some fs, some none⟩

/-- A page with the given features and a `_next` cursor. -/
def midPage (fs : List Feature) : Page := ⟨some fs, some (some "u")⟩

/-- Environment whose every POST fails at network level and whose result sets
are empty: every pair is skipped. -/
def envSkip : Env := ⟨fun _ _ => PostResult.netErr, fun _ => []⟩

/-- Environment whose searches succeed immediately and whose every result set
is one single-feature page. -/
def envOk : Env :=
  ⟨fun _ _ => PostResult.resp true (some "s"), fun _ => [PageResult.page (lastPage [goodFeature])]⟩

/-- Environment whose searches succeed immediately and whose every result set
is one page holding a well-formed feature followed by a feature with no
`geometry` key. -/
def envTorn : Env :=
  ⟨fun _ _ => PostResult.resp true (some "s"),
   fun _ => [PageResult.page (lastPage [goodFeature, tornFeature])]⟩

/-- POST trace of an endpoint that fails five times with a non-2xx response
whose JSON body nevertheless holds an `id` member, then succeeds. -/
def c1posts : ℕ → PostResult := fun i =>
  if i < 5 then PostResult.resp false (some "x") else PostResult.resp true (some "x")

/-! ## Statement vocabulary -/

/-- A feature carrying all three of `id`, `geometry`, `properties`. -/
def WFFeature (f : Feature) : Prop :=
  f.id?.isSome ∧ f.geometry?.isSome ∧ f.properties?.isSome

/-- A page whose `features` array is present with every feature
well-formed. -/
def WFPage (p : Page) : Prop :=
  ∃ fs, p.features? = some fs ∧ ∀ f ∈ fs, WFFeature f

/-- A page carrying a truthy `_links._next` cursor. -/
def HasNext (p : Page) : Prop := ∃ u, p.links? = some (some u) ∧ u ≠ ""

/-- A chain of result pages as in the claims: every page up to the last
carries a `_next` cursor and exactly the last lacks it. -/
def GoodChain : List Page → Prop
  | [] => False
  | [p] => p.links? = some none
  | p :: q :: t => HasNext p ∧ GoodChain (q :: t)

/-- A page result whose decoded features (if it decodes at all) are all
well-formed. -/
def WFPageResult : PageResult → Prop
  | PageResult.fetchRaise => True
  | PageResult.page p => ∀ fs, p.features? = some fs → ∀ f ∈ fs, WFFeature f

/-- An environment in which every feature of every decoded page carries all
three keys. -/
def EnvFeaturesWF (env : Env) : Prop := ∀ i, ∀ pr ∈ env.pages i, WFPageResult pr

/-- The three accumulators are projections of one list of fetched features:
entry `i` of `ids`, `geometries` and `properties` all come from feature `i`
of that list. -/
def AlignedSt (st : Inventory) : Prop :=
  ∃ fs : List Feature, optMap (fun f => f.id?) fs = some st.ids ∧
    optMap (fun f => f.geometry?) fs = some st.geometries ∧
    optMap (fun f => f.properties?) fs = some st.properties

/-- `b` extends `a` by appending only: nothing already accumulated in `a` is
dropped or reordered. -/
def ExtendsSt (a b : Inventory) : Prop :=
  ∃ t1 t2 t3, b.ids = a.ids ++ t1 ∧ b.geometries = a.geometries ++ t2 ∧
    b.properties = a.properties ++ t3

/-- The accumulators after appending one decoded page of features. -/
def appendPage (st : Inventory) (fs : List Feature) : Inventory :=
  ⟨st.ids ++ fs.filterMap (fun f => f.id?),
   st.geometries ++ fs.filterMap (fun f => f.geometry?),
   st.properties ++ fs.filterMap (fun f => f.properties?)⟩

/-- The accumulators after appending a sequence of decoded pages. -/
def appendPages (st : Inventory) (ps : List Page) : Inventory :=
  ps.foldl (fun s p => appendPage s (p.features?.getD [])) st

/-- The conjunction of properties claimed for `tile_dates` over a range of
`d = (stop - start) + 1` days and slice length `m`: single unchanged interval
when `d ≤ m`; otherwise `⌈d/m⌉` chronologically ordered intervals starting at
`start`, of length `m` except possibly the last, ending at `stop`, each next
starting the day after the previous end, partitioning the range with no gaps
or overlaps. -/
def TileDatesSpec (s e : ℤ) (m : ℕ) : Prop :=
  (e - s + 1 ≤ (m : ℤ) → tile_dates s e m = [(s, e)]) ∧
  ((m : ℤ) < e - s + 1 →
    (tile_dates s e m).length = ((e - s + 1).toNat + m - 1) / m ∧
    (tile_dates s e m).head? = some (s, s + m - 1) ∧
    (∃ a, (tile_dates s e m).getLast? = some (a, e)) ∧
    (∀ p ∈ (tile_dates s e m).dropLast, p.2 - p.1 + 1 = (m : ℤ)) ∧
    (∀ p ∈ tile_dates s e m, p.1 ≤ p.2 ∧ p.2 - p.1 + 1 ≤ (m : ℤ)) ∧
    List.Chain' (fun p q => q.1 = p.2 + 1) (tile_dates s e m) ∧
    List.Pairwise (fun p q : ℤ × ℤ => p.2 < q.1) (tile_dates s e m) ∧
    (∀ x : ℤ, (s ≤ x ∧ x ≤ e) ↔ ∃ p ∈ tile_dates s e m, p.1 ≤ x ∧ x ≤ p.2))

/-- The properties claimed for every element of `tile_aoi ops aoi ts`: it is
the intersection of one grid cell with the AOI, its area is strictly
positive, and — when intersection is set intersection on carriers — it does
not extend beyond the AOI. -/
def TileAoiSpec (ops : GeomOps G) (aoi : G) (ts : ℚ) : Prop :=
  ∀ t ∈ tile_aoi ops aoi ts,
    (∃ i j : ℕ,
      i < (⌈((ops.bounds aoi).2.2.1 - (ops.bounds aoi).1) / ts⌉).toNat ∧
      j < (⌈((ops.bounds aoi).2.2.2 - (ops.bounds aoi).2.1) / ts⌉).toNat ∧
      t = ops.inter
        (ops.box ((ops.bounds aoi).1 + i * ts) ((ops.bounds aoi).2.1 + j * ts)
          (min ((ops.bounds aoi).1 + (i + 1) * ts) (ops.bounds aoi).2.2.1)
          (min ((ops.bounds aoi).2.1 + (j + 1) * ts) (ops.bounds aoi).2.2.2)) aoi) ∧
    0 < ops.area t ∧
    ops.carrier t ⊆ ops.carrier aoi

/-- The properties claimed for the pagination of one successful pair whose
result set is the page chain `goods`: the pair completes after exactly
`goods.length` page requests and one POST attempt, and the three
accumulators receive exactly the concatenated feature projections in page
order, passed through unmodified. -/
def PaginationOrderProp (posts : ℕ → PostResult) (goods : List Page)
    (st : Inventory) : Prop :=
  run_pair MAX_RETRIES posts (goods.map PageResult.page) st =
    (appendPages st goods,
      ⟨1, goods.length, PairOutcome.completed, appendPages st goods⟩) ∧
  (appendPages st goods).ids =
    st.ids ++ (goods.flatMap fun p => p.features?.getD []).filterMap (fun f => f.id?) ∧
  (appendPages st goods).geometries =
    st.geometries ++
      (goods.flatMap fun p => p.features?.getD []).filterMap (fun f => f.geometry?) ∧
  (appendPages st goods).properties =
    st.properties ++
      (goods.flatMap fun p => p.features?.getD []).filterMap (fun f => f.properties?)

/-- The kept-items policy claimed for a mid-pagination failure: walking
`goods` fully-processed pages and then hitting a fetch error keeps every
entry appended from the earlier pages (and ignores whatever would have come
after the error), and everything present in the accumulators at the end of
any pair is still present, in place, in the accumulators the run returns. -/
def KeptItemsProp (st : Inventory) (goods : List Page) (rest : List PageResult) : Prop :=
  page_loop st (goods.map PageResult.page ++ PageResult.fetchRaise :: rest) =
    (appendPages st goods, goods.length + 1, true) ∧
  (∀ (H : Type) (ops : GeomOps H) (env : Env) (aois : List H)
      (dr : List (ℤ × ℤ)) (mc ms : ℚ) (stF : Inventory) (rec : PairRecord),
    (fetch_planet_data ops env aois dr mc ms).result = Except.ok stF →
    rec ∈ (fetch_planet_data ops env aois dr mc ms).records →
    ExtendsSt rec.stAfter stF)

/-- The properties claimed for the temporal span actually queried by a run
over the ranges `dr`: the run is unchanged by replacing `dr` with any list
`dr2` sharing its first element and its last element (the boundaries of
intermediate ranges are ignored), every day of the span from the first
range's start to the last range's end is covered by a queried interval, and
the run makes one pair per tile per interval of
`tile_dates date_ranges[0][0] date_ranges[-1][1]`. -/
def SpanSliceProp (ops : GeomOps G) (env : Env) (aois : List G) (mc ms : ℚ)
    (dr dr2 : List (ℤ × ℤ)) (d0 dl : ℤ × ℤ) : Prop :=
  ((fetch_planet_data ops env aois dr mc ms).result =
      (fetch_planet_data ops env aois dr2 mc ms).result ∧
    (fetch_planet_data ops env aois dr mc ms).requestCount =
      (fetch_planet_data ops env aois dr2 mc ms).requestCount ∧
    (fetch_planet_data ops env aois dr mc ms).records =
      (fetch_planet_data ops env aois dr2 mc ms).records) ∧
  (∀ x : ℤ, d0.1 ≤ x → x ≤ dl.2 →
    ∃ p ∈ tile_dates d0.1 dl.2 TEMPORAL_TILE_DAYS_THRESHOLD, p.1 ≤ x ∧ x ≤ p.2) ∧
  (∃ st, (fetch_planet_data ops env aois dr mc ms).result = Except.ok st) ∧
  (fetch_planet_data ops env aois dr mc ms).records.length =
    (aois.map fun a => (tiles_for ops a).length).sum *
      (tile_dates d0.1 dl.2 TEMPORAL_TILE_DAYS_THRESHOLD).length

/-! ## Lemmas about the temporal slicing loop -/

theorem slice_loop_step (m : ℕ) (e cs : ℤ) (hcs : cs ≤ e) (hm : 1 ≤ m) :
    slice_loop m e cs =
      if e ≤ cs + m - 1 then [(cs, e)]
      else (cs, cs + m - 1) :: slice_loop m e (cs + m) := by
  rw [slice_loop, dif_pos ⟨hcs, hm⟩]
  by_cases h2 : e ≤ cs + (m : ℤ) - 1
  · rw [if_pos h2, min_eq_right h2]
    rw [slice_loop, dif_neg (by omega)]
  · rw [if_neg h2, min_eq_left (by omega)]
    have h3 : cs + (m : ℤ) - 1 + 1 = cs + m := by ring
    rw [h3]

theorem slice_loop_ne_nil (m : ℕ) (e cs : ℤ) (hcs : cs ≤ e) (hm : 1 ≤ m) :
    slice_loop m e cs ≠ [] := by
  rw [slice_loop_step m e cs hcs hm]
  by_cases h2 : e ≤ cs + (m : ℤ) - 1
  · rw [if_pos h2]; simp
  · rw [if_neg h2]; simp

theorem slice_loop_head (m : ℕ) (e cs : ℤ) (hcs : cs ≤ e) (hm : 1 ≤ m) :
    (slice_loop m e cs).head? = some (cs, min (cs + m - 1) e) := by
  rw [slice_loop, dif_pos ⟨hcs, hm⟩]
  rfl

theorem slice_loop_length (m : ℕ) (hm : 1 ≤ m) (e : ℤ) :
    ∀ cs, cs ≤ e → (slice_loop m e cs).length = ((e - cs).toNat + m) / m := by
  intro cs
  induction cs using slice_loop.induct m e with
  | case1 x hx ih =>
    intro hxe
    rw [slice_loop_step m e x hxe hx.2]
    by_cases h2 : e ≤ x + (m : ℤ) - 1
    · rw [if_pos h2]
      have ht : (e - x).toNat < m := by omega
      rw [List.length_singleton, Nat.add_div_right _ (by omega), Nat.div_eq_of_lt ht]
    · rw [if_neg h2]
      have hmin : (x + (m : ℤ) - 1) ⊓ e = x + m - 1 := min_eq_left (by omega)
      rw [hmin] at ih
      have hx2 : x + (m : ℤ) - 1 + 1 = x + m := by ring
      rw [hx2] at ih
      have ihh := ih (by omega)
      rw [List.length_cons, ihh]
      have e1 : (e - x).toNat = (e - (x + m)).toNat + m := by omega
      rw [e1, Nat.add_div_right ((e - (x + (m : ℤ))).toNat + m) (by omega)]
  | case2 x hx =>
    intro hxe
    exact absurd ⟨hxe, hm⟩ hx

theorem slice_loop_last (m : ℕ) (hm : 1 ≤ m) (e : ℤ) :
    ∀ cs, cs ≤ e → ∃ a, (slice_loop m e cs).getLast? = some (a, e) := by
  intro cs
  induction cs using slice_loop.induct m e with
  | case1 x hx ih =>
    intro hxe
    rw [slice_loop_step m e x hxe hx.2]
    by_cases h2 : e ≤ x + (m : ℤ) - 1
    · rw [if_pos h2]
      exact ⟨x, rfl⟩
    · rw [if_neg h2]
      have hmin : (x + (m : ℤ) - 1) ⊓ e = x + m - 1 := min_eq_left (by omega)
      rw [hmin] at ih
      have hx2 : x + (m : ℤ) - 1 + 1 = x + m := by ring
      rw [hx2] at ih
      obtain ⟨a, ha⟩ := ih (by omega)
      refine ⟨a, ?_⟩
      obtain ⟨y, l, hyl⟩ : ∃ y l, slice_loop m e (x + m) = y :: l := by
        cases h : slice_loop m e (x + m) with
        | nil => exact absurd h (slice_loop_ne_nil m e (x + m) (by omega) hm)
        | cons y l => exact ⟨y, l, rfl⟩
      rw [hyl] at ha ⊢
      rw [List.getLast?_cons_cons]
      exact ha
  | case2 x hx =>
    intro hxe
    exact absurd ⟨hxe, hm⟩ hx

theorem slice_loop_mem (m : ℕ) (hm : 1 ≤ m) (e : ℤ) :
    ∀ cs, cs ≤ e → ∀ p ∈ slice_loop m e cs,
      cs ≤ p.1 ∧ p.1 ≤ p.2 ∧ p.2 ≤ e ∧ p.2 - p.1 + 1 ≤ (m : ℤ) := by
  intro cs
  induction cs using slice_loop.induct m e with
  | case1 x hx ih =>
    intro hxe p hp
    rw [slice_loop_step m e x hxe hx.2] at hp
    by_cases h2 : e ≤ x + (m : ℤ) - 1
    · rw [if_pos h2] at hp
      simp only [List.mem_singleton] at hp
      subst hp
      refine ⟨le_refl _, hxe, le_refl _, by omega⟩
    · rw [if_neg h2] at hp
      have hmin : (x + (m : ℤ) - 1) ⊓ e = x + m - 1 := min_eq_left (by omega)
      rw [hmin] at ih
      have hx2 : x + (m : ℤ) - 1 + 1 = x + m := by ring
      rw [hx2] at ih
      rcases List.mem_cons.1 hp with hp1 | hp2
      · subst hp1
        refine ⟨le_refl _, by omega, by omega, by omega⟩
      · have := ih (by omega) p hp2
        exact ⟨by omega, this.2.1, this.2.2.1, this.2.2.2⟩
  | case2 x hx =>
    intro hxe
    exact absurd ⟨hxe, hm⟩ hx

theorem slice_loop_dropLast (m : ℕ) (hm : 1 ≤ m) (e : ℤ) :
    ∀ cs, cs ≤ e → ∀ p ∈ (slice_loop m e cs).dropLast, p.2 - p.1 + 1 = (m : ℤ) := by
  intro cs
  induction cs using slice_loop.induct m e with
  | case1 x hx ih =>
    intro hxe p hp
    rw [slice_loop_step m e x hxe hx.2] at hp
    by_cases h2 : e ≤ x + (m : ℤ) - 1
    · rw [if_pos h2] at hp
      simp at hp
    · rw [if_neg h2] at hp
      have hmin : (x + (m : ℤ) - 1) ⊓ e = x + m - 1 := min_eq_left (by omega)
      rw [hmin] at ih
      have hx2 : x + (m : ℤ) - 1 + 1 = x + m := by ring
      rw [hx2] at ih
      obtain ⟨y, l, hyl⟩ : ∃ y l, slice_loop m e (x + m) = y :: l := by
        cases h : slice_loop m e (x + m) with
        | nil => exact absurd h (slice_loop_ne_nil m e (x + m) (by omega) hm)
        | cons y l => exact ⟨y, l, rfl⟩
      rw [hyl] at hp
      rw [List.dropLast_cons₂] at hp
      rcases List.mem_cons.1 hp with hp1 | hp2
      · subst hp1; push_cast; ring
      · exact ih (by omega) p (by rw [hyl]; exact hp2)
  | case2 x hx =>
    intro hxe
    exact absurd ⟨hxe, hm⟩ hx

theorem slice_loop_chain (m : ℕ) (hm : 1 ≤ m) (e : ℤ) :
    ∀ cs, cs ≤ e → List.Chain' (fun p q : ℤ × ℤ => q.1 = p.2 + 1) (slice_loop m e cs) := by
  intro cs
  induction cs using slice_loop.induct m e with
  | case1 x hx ih =>
    intro hxe
    rw [slice_loop_step m e x hxe hx.2]
    by_cases h2 : e ≤ x + (m : ℤ) - 1
    · rw [if_pos h2]
      simp
    · rw [if_neg h2]
      have hmin : (x + (m : ℤ) - 1) ⊓ e = x + m - 1 := min_eq_left (by omega)
      rw [hmin] at ih
      have hx2 : x + (m : ℤ) - 1 + 1 = x + m := by ring
      rw [hx2] at ih
      rw [List.chain'_cons']
      refine ⟨?_, ih (by omega)⟩
      intro y hy
      have hh := slice_loop_head m e (x + m) (by omega) hm
      rw [hh] at hy
      simp only [Option.mem_def, Option.some_inj] at hy
      subst hy
      show x + (m : ℤ) = (x + (m : ℤ) - 1) + 1
      omega
  | case2 x hx =>
    intro hxe
    exact absurd ⟨hxe, hm⟩ hx

theorem slice_loop_pairwise (m : ℕ) (hm : 1 ≤ m) (e : ℤ) :
    ∀ cs, cs ≤ e → List.Pairwise (fun p q : ℤ × ℤ => p.2 < q.1) (slice_loop m e cs) := by
  intro cs
  induction cs using slice_loop.induct m e with
  | case1 x hx ih =>
    intro hxe
    rw [slice_loop_step m e x hxe hx.2]
    by_cases h2 : e ≤ x + (m : ℤ) - 1
    · rw [if_pos h2]
      simp
    · rw [if_neg h2]
      have hmin : (x + (m : ℤ) - 1) ⊓ e = x + m - 1 := min_eq_left (by omega)
      rw [hmin] at ih
      have hx2 : x + (m : ℤ) - 1 + 1 = x + m := by ring
      rw [hx2] at ih
      rw [List.pairwise_cons]
      refine ⟨?_, ih (by omega)⟩
      intro q hq
      have := slice_loop_mem m hm e (x + m) (by omega) q hq
      simp
      omega
  | case2 x hx =>
    intro hxe
    exact absurd ⟨hxe, hm⟩ hx

theorem slice_loop_cover (m : ℕ) (hm : 1 ≤ m) (e : ℤ) :
    ∀ cs, cs ≤ e → ∀ x : ℤ,
      (cs ≤ x ∧ x ≤ e) ↔ ∃ p ∈ slice_loop m e cs, p.1 ≤ x ∧ x ≤ p.2 := by
  intro cs
  induction cs using slice_loop.induct m e with
  | case1 c hc ih =>
    intro hce x
    rw [slice_loop_step m e c hce hc.2]
    by_cases h2 : e ≤ c + (m : ℤ) - 1
    · rw [if_pos h2]
      simp
    · rw [if_neg h2]
      have hmin : (c + (m : ℤ) - 1) ⊓ e = c + m - 1 := min_eq_left (by omega)
      rw [hmin] at ih
      have hc2 : c + (m : ℤ) - 1 + 1 = c + m := by ring
      rw [hc2] at ih
      have ihx := ih (by omega) x
      constructor
      · rintro ⟨hcx, hxe⟩
        by_cases h3 : x ≤ c + (m : ℤ) - 1
        · exact ⟨(c, c + m - 1), List.mem_cons_self _ _, hcx, h3⟩
        · obtain ⟨p, hp, hpx⟩ := ihx.1 ⟨by omega, hxe⟩
          exact ⟨p, List.mem_cons_of_mem _ hp, hpx⟩
      · rintro ⟨p, hp, hpx1, hpx2⟩
        rcases List.mem_cons.1 hp with hp1 | hp2
        · subst hp1
          constructor
          · exact hpx1
          · simp at hpx2; omega
        · have := ihx.2 ⟨p, hp2, hpx1, hpx2⟩
          exact ⟨by omega, this.2⟩
  | case2 c hc =>
    intro hce
    exact absurd ⟨hce, hm⟩ hc

/-! ## Lemmas about comprehension and pagination -/

theorem optMap_all_some (g : Feature → Option String) :
    ∀ fs : List Feature, (∀ f ∈ fs, (g f).isSome) →
      optMap g fs = some (fs.filterMap g) := by
  intro fs
  induction fs with
  | nil => intro _; rfl
  | cons f t ih =>
    intro h
    obtain ⟨b, hb⟩ := Option.isSome_iff_exists.1 (h f (List.mem_cons_self f t))
    have ht := ih (fun x hx => h x (List.mem_cons_of_mem f hx))
    simp only [optMap, hb, ht, List.filterMap_cons]

theorem optMap_length (g : Feature → Option String) :
    ∀ (fs : List Feature) (l : List String), optMap g fs = some l →
      l.length = fs.length := by
  intro fs
  induction fs with
  | nil =>
    intro l h
    simp only [optMap, Option.some_inj] at h
    subst h
    rfl
  | cons f t ih =>
    intro l h
    simp only [optMap] at h
    cases hgf : g f with
    | none => rw [hgf] at h; simp at h
    | some b =>
      rw [hgf] at h
      cases hot : optMap g t with
      | none => rw [hot] at h; simp at h
      | some bs =>
        rw [hot] at h
        simp only [Option.some_inj] at h
        subst h
        simp [ih bs hot]

theorem optMap_append_some (g : Feature → Option String) :
    ∀ (fs1 : List Feature) {fs2 a b}, optMap g fs1 = some a →
      optMap g fs2 = some b → optMap g (fs1 ++ fs2) = some (a ++ b) := by
  intro fs1
  induction fs1 with
  | nil =>
    intro fs2 a b h1 h2
    simp only [optMap, Option.some_inj] at h1
    subst h1
    simpa using h2
  | cons f t ih =>
    intro fs2 a b h1 h2
    simp only [optMap] at h1
    cases hgf : g f with
    | none => rw [hgf] at h1; simp at h1
    | some v =>
      rw [hgf] at h1
      cases hot : optMap g t with
      | none => rw [hot] at h1; simp at h1
      | some bs =>
        rw [hot] at h1
        simp only [Option.some_inj] at h1
        subst h1
        rw [List.cons_append]
        simp only [optMap, hgf, ih hot h2]
        rfl

theorem appendPages_cons (st : Inventory) (p : Page) (ps : List Page) :
    appendPages st (p :: ps) = appendPages (appendPage st (p.features?.getD [])) ps := rfl

theorem appendPages_fields (goods : List Page) :
    ∀ st : Inventory,
      (appendPages st goods).ids =
        st.ids ++ (goods.flatMap fun p => p.features?.getD []).filterMap (fun f => f.id?) ∧
      (appendPages st goods).geometries =
        st.geometries ++
          (goods.flatMap fun p => p.features?.getD []).filterMap (fun f => f.geometry?) ∧
      (appendPages st goods).properties =
        st.properties ++
          (goods.flatMap fun p => p.features?.getD []).filterMap (fun f => f.properties?) := by
  induction goods with
  | nil => intro st; simp [appendPages]
  | cons p t ih =>
    intro st
    rw [appendPages_cons]
    obtain ⟨h1, h2, h3⟩ := ih (appendPage st (p.features?.getD []))
    refine ⟨?_, ?_, ?_⟩
    · rw [h1]
      simp [appendPage, List.flatMap_cons, List.filterMap_append, List.append_assoc]
    · rw [h2]
      simp [appendPage, List.flatMap_cons, List.filterMap_append, List.append_assoc]
    · rw [h3]
      simp [appendPage, List.flatMap_cons, List.filterMap_append, List.append_assoc]

theorem extendsSt_refl (a : Inventory) : ExtendsSt a a :=
  ⟨[], [], [], by simp, by simp, by simp⟩

theorem extendsSt_trans {a b c : Inventory} (h1 : ExtendsSt a b) (h2 : ExtendsSt b c) :
    ExtendsSt a c := by
  obtain ⟨t1, t2, t3, e1, e2, e3⟩ := h1
  obtain ⟨u1, u2, u3, f1, f2, f3⟩ := h2
  exact ⟨t1 ++ u1, t2 ++ u2, t3 ++ u3, by rw [f1, e1, List.append_assoc],
    by rw [f2, e2, List.append_assoc], by rw [f3, e3, List.append_assoc]⟩

theorem page_loop_cons_wf (st : Inventory) (p : Page) (fs : List Feature)
    (rest : List PageResult) (hfs : p.features? = some fs)
    (hwf : ∀ f ∈ fs, WFFeature f) :
    page_loop st (PageResult.page p :: rest) =
      match p.links? with
      | none => (appendPage st fs, 1, true)
      | some none => (appendPage st fs, 1, false)
      | some (some u) =>
        if u = "" then (appendPage st fs, 1, false)
        else ((page_loop (appendPage st fs) rest).1,
          (page_loop (appendPage st fs) rest).2.1 + 1,
          (page_loop (appendPage st fs) rest).2.2) := by
  have h1 : optMap (fun f => f.id?) fs = some (fs.filterMap fun f => f.id?) :=
    optMap_all_some _ fs (fun f hf => (hwf f hf).1)
  have h2 : optMap (fun f => f.geometry?) fs = some (fs.filterMap fun f => f.geometry?) :=
    optMap_all_some _ fs (fun f hf => (hwf f hf).2.1)
  have h3 : optMap (fun f => f.properties?) fs = some (fs.filterMap fun f => f.properties?) :=
    optMap_all_some _ fs (fun f hf => (hwf f hf).2.2)
  simp only [page_loop, hfs, h1, h2, h3]
  cases hl : p.links? with
  | none => rfl
  | some o =>
    cases o with
    | none => rfl
    | some u =>
      by_cases hu : u = ""
      · simp only [if_pos hu]; rfl
      · simp only [if_neg hu]; rfl

theorem page_loop_good_chain (goods : List Page) :
    ∀ st : Inventory, GoodChain goods → (∀ p ∈ goods, WFPage p) →
      page_loop st (goods.map PageResult.page) =
        (appendPages st goods, goods.length, false) := by
  induction goods with
  | nil => intro st hch _; exact hch.elim
  | cons p t ih =>
    intro st hch hwf
    obtain ⟨fs, hfs, hfswf⟩ := hwf p (List.mem_cons_self p t)
    cases t with
    | nil =>
      have hl : p.links? = some none := hch
      rw [List.map_cons, List.map_nil, page_loop_cons_wf st p fs [] hfs hfswf, hl]
      rw [appendPages_cons, hfs]
      simp [appendPages, appendPage]
    | cons q t2 =>
      obtain ⟨⟨u, hu, hune⟩, hch2⟩ := hch
      rw [List.map_cons, page_loop_cons_wf st p fs _ hfs hfswf, hu]
      simp only [if_neg hune]
      rw [ih (appendPage st fs) hch2 (fun x hx => hwf x (List.mem_cons_of_mem p hx))]
      conv_rhs => rw [appendPages_cons]
      rw [hfs]
      simp

theorem page_loop_raise (goods : List Page) :
    ∀ (st : Inventory) (rest : List PageResult),
      (∀ p ∈ goods, WFPage p ∧ HasNext p) →
      page_loop st (goods.map PageResult.page ++ PageResult.fetchRaise :: rest) =
        (appendPages st goods, goods.length + 1, true) := by
  induction goods with
  | nil =>
    intro st rest _
    simp [appendPages, page_loop]
  | cons p t ih =>
    intro st rest hwf
    obtain ⟨⟨fs, hfs, hfswf⟩, u, hu, hune⟩ := hwf p (List.mem_cons_self p t)
    rw [List.map_cons, List.cons_append, page_loop_cons_wf st p fs _ hfs hfswf, hu]
    simp only [if_neg hune]
    rw [ih (appendPage st fs) rest (fun x hx => hwf x (List.mem_cons_of_mem p hx))]
    rw [appendPages_cons, hfs]
    simp

theorem page_loop_extends : ∀ (ps : List PageResult) (st : Inventory),
    ExtendsSt st (page_loop st ps).1 := by
  intro ps
  induction ps with
  | nil => intro st; exact extendsSt_refl st
  | cons pr rest ih =>
    intro st
    cases pr with
    | fetchRaise => exact extendsSt_refl st
    | page p =>
      simp only [page_loop]
      split
      · exact extendsSt_refl st
      · split
        · exact extendsSt_refl st
        · split
          · exact ⟨_, [], [], rfl, by simp, by simp⟩
          · split
            · exact ⟨_, _, [], rfl, rfl, by simp⟩
            · split
              · exact ⟨_, _, _, rfl, rfl, rfl⟩
              · exact ⟨_, _, _, rfl, rfl, rfl⟩
              · split
                · exact ⟨_, _, _, rfl, rfl, rfl⟩
                · exact extendsSt_trans ⟨_, _, _, rfl, rfl, rfl⟩ (ih _)

theorem aligned_appendPage {st : Inventory} (fs : List Feature) (hal : AlignedSt st)
    (hwf : ∀ f ∈ fs, WFFeature f) : AlignedSt (appendPage st fs) := by
  obtain ⟨fs0, a1, a2, a3⟩ := hal
  refine ⟨fs0 ++ fs, ?_, ?_, ?_⟩
  · exact optMap_append_some _ fs0 a1 (optMap_all_some _ fs fun f hf => (hwf f hf).1)
  · exact optMap_append_some _ fs0 a2 (optMap_all_some _ fs fun f hf => (hwf f hf).2.1)
  · exact optMap_append_some _ fs0 a3 (optMap_all_some _ fs fun f hf => (hwf f hf).2.2)

theorem page_loop_aligned : ∀ (ps : List PageResult) (st : Inventory), AlignedSt st →
    (∀ pr ∈ ps, WFPageResult pr) → AlignedSt (page_loop st ps).1 := by
  intro ps
  induction ps with
  | nil => intro st h _; exact h
  | cons pr rest ih =>
    intro st hal hwf
    cases pr with
    | fetchRaise => exact hal
    | page p =>
      have hwfp : WFPageResult (PageResult.page p) := hwf _ (List.mem_cons_self _ _)
      cases hfs : p.features? with
      | none =>
        simp only [page_loop, hfs]
        exact hal
      | some fs =>
        have hffs : ∀ f ∈ fs, WFFeature f := hwfp fs hfs
        rw [page_loop_cons_wf st p fs rest hfs hffs]
        cases hl : p.links? with
        | none => exact aligned_appendPage fs hal hffs
        | some o =>
          cases o with
          | none => exact aligned_appendPage fs hal hffs
          | some u =>
            by_cases hu : u = ""
            · simp only [if_pos hu]
              exact aligned_appendPage fs hal hffs
            · simp only [if_neg hu]
              exact ih _ (aligned_appendPage fs hal hffs)
                (fun x hx => hwf x (List.mem_cons_of_mem _ hx))

theorem run_pair_extends (rr : ℕ) (posts : ℕ → PostResult) (pages : List PageResult)
    (st : Inventory) :
    ExtendsSt st (run_pair rr posts pages st).1 ∧
    (run_pair rr posts pages st).2.stAfter = (run_pair rr posts pages st).1 := by
  rcases h : retry_go posts none 0 rr with ⟨resp, att⟩
  cases resp with
  | none =>
    simp only [run_pair, h]
    exact ⟨extendsSt_refl st, trivial⟩
  | some response =>
    cases hid : response.2 with
    | none =>
      simp only [run_pair, h, hid]
      exact ⟨extendsSt_refl st, trivial⟩
    | some sid =>
      simp only [run_pair, h, hid]
      exact ⟨page_loop_extends pages st, trivial⟩

theorem run_pair_aligned (rr : ℕ) (posts : ℕ → PostResult) (pages : List PageResult)
    (st : Inventory) (hal : AlignedSt st) (hwf : ∀ pr ∈ pages, WFPageResult pr) :
    AlignedSt (run_pair rr posts pages st).1 := by
  rcases h : retry_go posts none 0 rr with ⟨resp, att⟩
  cases resp with
  | none =>
    simp only [run_pair, h]
    exact hal
  | some response =>
    cases hid : response.2 with
    | none =>
      simp only [run_pair, h, hid]
      exact hal
    | some sid =>
      simp only [run_pair, h, hid]
      exact page_loop_aligned pages st hal hwf

/-! ## Lemmas about the cross-product run -/

theorem build_filters_ok (tiles : List G) (drs : List (ℤ × ℤ)) (mc ms : ℚ)
    (h0 : 0 ≤ mc) (h1 : mc ≤ 1) (h2 : -90 ≤ ms) (h3 : ms ≤ 90) :
    ∃ v, build_filters tiles drs mc ms = Except.ok v := by
  have hcond : ¬(mc < 0 ∨ 1 < mc ∨ ms < -90 ∨ 90 < ms) := by
    push_neg
    exact ⟨h0, h1, h2, h3⟩
  exact ⟨_, by unfold build_filters; rw [if_neg hcond]⟩

theorem step_pair_ok (env : Env) (mc ms : ℚ) (tile : G) (iv : ℤ × ℤ) (acc : RunAcc)
    (h0 : 0 ≤ mc) (h1 : mc ≤ 1) (h2 : -90 ≤ ms) (h3 : ms ≤ 90) :
    step_pair env mc ms tile iv acc = Except.ok
      ⟨(run_pair MAX_RETRIES (env.posts acc.cnt) (env.pages acc.cnt) acc.st).1,
        acc.cnt + 1,
        acc.recs ++ [(run_pair MAX_RETRIES (env.posts acc.cnt) (env.pages acc.cnt) acc.st).2]⟩ := by
  obtain ⟨v, hv⟩ := build_filters_ok [tile] [iv] mc ms h0 h1 h2 h3
  simp only [step_pair, hv]

theorem run_ivs_ok (env : Env) (mc ms : ℚ) (tile : G)
    (h0 : 0 ≤ mc) (h1 : mc ≤ 1) (h2 : -90 ≤ ms) (h3 : ms ≤ 90) :
    ∀ (ivs : List (ℤ × ℤ)) (acc : RunAcc), ∃ acc2,
      run_ivs env mc ms tile ivs acc = Except.ok acc2 ∧
      acc2.cnt = acc.cnt + ivs.length ∧
      acc2.recs.length = acc.recs.length + ivs.length := by
  intro ivs
  induction ivs with
  | nil => intro acc; exact ⟨acc, rfl, by simp, by simp⟩
  | cons iv rest ih =>
    intro acc
    obtain ⟨acc2, hs, hc, hr⟩ := ih
      ⟨(run_pair MAX_RETRIES (env.posts acc.cnt) (env.pages acc.cnt) acc.st).1,
        acc.cnt + 1,
        acc.recs ++ [(run_pair MAX_RETRIES (env.posts acc.cnt) (env.pages acc.cnt) acc.st).2]⟩
    dsimp only at hc hr
    simp only [List.length_append, List.length_singleton] at hr
    refine ⟨acc2, ?_, ?_, ?_⟩
    · simp only [run_ivs, step_pair_ok env mc ms tile iv acc h0 h1 h2 h3]
      exact hs
    · simp only [List.length_cons]
      omega
    · simp only [List.length_cons]
      omega

theorem run_tile_eq (env : Env) (mc ms : ℚ) {dr : List (ℤ × ℤ)} {d0 dl : ℤ × ℤ}
    (hh : dr.head? = some d0) (hl : dr.getLast? = some dl) (tile : G) (acc : RunAcc) :
    run_tile env mc ms dr tile acc =
      run_ivs env mc ms tile (tile_dates d0.1 dl.2 TEMPORAL_TILE_DAYS_THRESHOLD) acc := by
  cases dr with
  | nil => simp at hh
  | cons a t =>
    simp only [List.head?_cons, Option.some_inj] at hh
    have h2 : (a :: t).getLast (List.cons_ne_nil a t) = dl := by
      rw [List.getLast?_eq_getLast _ (List.cons_ne_nil a t)] at hl
      exact Option.some_inj.1 hl
    simp only [run_tile]
    rw [h2, hh]

theorem run_tiles_ok (env : Env) (mc ms : ℚ) {dr : List (ℤ × ℤ)} {d0 dl : ℤ × ℤ}
    (hh : dr.head? = some d0) (hl : dr.getLast? = some dl)
    (h0 : 0 ≤ mc) (h1 : mc ≤ 1) (h2 : -90 ≤ ms) (h3 : ms ≤ 90) :
    ∀ (tiles : List G) (acc : RunAcc), ∃ acc2,
      run_tiles env mc ms dr tiles acc = Except.ok acc2 ∧
      acc2.cnt = acc.cnt +
        tiles.length * (tile_dates d0.1 dl.2 TEMPORAL_TILE_DAYS_THRESHOLD).length ∧
      acc2.recs.length = acc.recs.length +
        tiles.length * (tile_dates d0.1 dl.2 TEMPORAL_TILE_DAYS_THRESHOLD).length := by
  intro tiles
  induction tiles with
  | nil => intro acc; exact ⟨acc, rfl, by simp, by simp⟩
  | cons t ts ih =>
    intro acc
    obtain ⟨acc1, hs1, hc1, hr1⟩ :=
      run_ivs_ok env mc ms t h0 h1 h2 h3
        (tile_dates d0.1 dl.2 TEMPORAL_TILE_DAYS_THRESHOLD) acc
    obtain ⟨acc2, hs2, hc2, hr2⟩ := ih acc1
    refine ⟨acc2, ?_, ?_, ?_⟩
    · simp only [run_tiles, run_tile_eq env mc ms hh hl t acc, hs1]
      exact hs2
    · rw [List.length_cons, Nat.succ_mul]
      omega
    · rw [List.length_cons, Nat.succ_mul]
      omega

theorem run_aois_ok (ops : GeomOps G) (env : Env) (mc ms : ℚ)
    {dr : List (ℤ × ℤ)} {d0 dl : ℤ × ℤ}
    (hh : dr.head? = some d0) (hl : dr.getLast? = some dl)
    (h0 : 0 ≤ mc) (h1 : mc ≤ 1) (h2 : -90 ≤ ms) (h3 : ms ≤ 90) :
    ∀ (aois : List G) (acc : RunAcc), ∃ acc2,
      run_aois ops env mc ms dr aois acc = Except.ok acc2 ∧
      acc2.cnt = acc.cnt + (aois.map fun a => (tiles_for ops a).length).sum *
        (tile_dates d0.1 dl.2 TEMPORAL_TILE_DAYS_THRESHOLD).length ∧
      acc2.recs.length = acc.recs.length +
        (aois.map fun a => (tiles_for ops a).length).sum *
          (tile_dates d0.1 dl.2 TEMPORAL_TILE_DAYS_THRESHOLD).length := by
  intro aois
  induction aois with
  | nil => intro acc; exact ⟨acc, rfl, by simp, by simp⟩
  | cons a more ih =>
    intro acc
    obtain ⟨acc1, hs1, hc1, hr1⟩ :=
      run_tiles_ok env mc ms hh hl h0 h1 h2 h3 (tiles_for ops a) acc
    obtain ⟨acc2, hs2, hc2, hr2⟩ := ih acc1
    refine ⟨acc2, ?_, ?_, ?_⟩
    · simp only [run_aois, hs1]
      exact hs2
    · rw [List.map_cons, List.sum_cons, Nat.add_mul]
      omega
    · rw [List.map_cons, List.sum_cons, Nat.add_mul]
      omega

theorem fetch_planet_data_ok (ops : GeomOps G) (env : Env) (aois : List G)
    {dr : List (ℤ × ℤ)} {d0 dl : ℤ × ℤ}
    (hh : dr.head? = some d0) (hl : dr.getLast? = some dl) (mc ms : ℚ)
    (h0 : 0 ≤ mc) (h1 : mc ≤ 1) (h2 : -90 ≤ ms) (h3 : ms ≤ 90) :
    ∃ st, (fetch_planet_data ops env aois dr mc ms).result = Except.ok st ∧
      (fetch_planet_data ops env aois dr mc ms).requestCount =
        (aois.map fun a => (tiles_for ops a).length).sum *
          (tile_dates d0.1 dl.2 TEMPORAL_TILE_DAYS_THRESHOLD).length ∧
      (fetch_planet_data ops env aois dr mc ms).records.length =
        (aois.map fun a => (tiles_for ops a).length).sum *
          (tile_dates d0.1 dl.2 TEMPORAL_TILE_DAYS_THRESHOLD).length := by
  obtain ⟨acc2, hs, hc, hr⟩ :=
    run_aois_ok ops env mc ms hh hl h0 h1 h2 h3 aois ⟨⟨[], [], []⟩, 0, []⟩
  refine ⟨acc2.st, ?_, ?_, ?_⟩
  · simp only [fetch_planet_data, hs]
  · simp only [fetch_planet_data, hs]
    simpa using hc
  · simp only [fetch_planet_data, hs]
    simpa using hr

theorem run_tiles_congr (env : Env) (mc ms : ℚ) {dr dr2 : List (ℤ × ℤ)} {d0 dl : ℤ × ℤ}
    (hh : dr.head? = some d0) (hl : dr.getLast? = some dl)
    (hh2 : dr2.head? = some d0) (hl2 : dr2.getLast? = some dl) :
    ∀ (tiles : List G) (acc : RunAcc),
      run_tiles env mc ms dr tiles acc = run_tiles env mc ms dr2 tiles acc := by
  intro tiles
  induction tiles with
  | nil => intro acc; rfl
  | cons t ts ih =>
    intro acc
    simp only [run_tiles]
    rw [run_tile_eq env mc ms hh hl t acc, ← run_tile_eq env mc ms hh2 hl2 t acc]
    cases run_tile env mc ms dr2 t acc with
    | error e => rfl
    | ok acc2 => exact ih acc2

theorem run_aois_congr (ops : GeomOps G) (env : Env) (mc ms : ℚ)
    {dr dr2 : List (ℤ × ℤ)} {d0 dl : ℤ × ℤ}
    (hh : dr.head? = some d0) (hl : dr.getLast? = some dl)
    (hh2 : dr2.head? = some d0) (hl2 : dr2.getLast? = some dl) :
    ∀ (aois : List G) (acc : RunAcc),
      run_aois ops env mc ms dr aois acc = run_aois ops env mc ms dr2 aois acc := by
  intro aois
  induction aois with
  | nil => intro acc; rfl
  | cons a more ih =>
    intro acc
    simp only [run_aois]
    rw [run_tiles_congr env mc ms hh hl hh2 hl2 (tiles_for ops a) acc]
    cases run_tiles env mc ms dr2 (tiles_for ops a) acc with
    | error e => rfl
    | ok acc2 => exact ih acc2

theorem step_pair_recinv (env : Env) (mc ms : ℚ) (tile : G) (iv : ℤ × ℤ)
    (acc acc2 : RunAcc) (h : step_pair env mc ms tile iv acc = Except.ok acc2)
    (hinv : ∀ rec ∈ acc.recs, ExtendsSt rec.stAfter acc.st) :
    (∀ rec ∈ acc2.recs, ExtendsSt rec.stAfter acc2.st) ∧ ExtendsSt acc.st acc2.st := by
  cases hb : build_filters [tile] [iv] mc ms with
  | error e => simp [step_pair, hb] at h
  | ok v =>
    simp only [step_pair, hb, Except.ok.injEq] at h
    obtain ⟨hext, hafter⟩ :=
      run_pair_extends MAX_RETRIES (env.posts acc.cnt) (env.pages acc.cnt) acc.st
    subst h
    refine ⟨?_, hext⟩
    intro rec hrec
    rcases List.mem_append.1 hrec with hmem | hmem
    · exact extendsSt_trans (hinv rec hmem) hext
    · rw [List.mem_singleton.1 hmem, hafter]
      exact extendsSt_refl _

theorem run_ivs_recinv (env : Env) (mc ms : ℚ) (tile : G) :
    ∀ (ivs : List (ℤ × ℤ)) (acc acc2 : RunAcc),
      run_ivs env mc ms tile ivs acc = Except.ok acc2 →
      (∀ rec ∈ acc.recs, ExtendsSt rec.stAfter acc.st) →
      (∀ rec ∈ acc2.recs, ExtendsSt rec.stAfter acc2.st) ∧ ExtendsSt acc.st acc2.st := by
  intro ivs
  induction ivs with
  | nil =>
    intro acc acc2 h hinv
    simp only [run_ivs, Except.ok.injEq] at h
    subst h
    exact ⟨hinv, extendsSt_refl _⟩
  | cons iv rest ih =>
    intro acc acc2 h hinv
    simp only [run_ivs] at h
    cases hsp : step_pair env mc ms tile iv acc with
    | error e => rw [hsp] at h; simp at h
    | ok acc1 =>
      rw [hsp] at h
      obtain ⟨hinv1, hext1⟩ := step_pair_recinv env mc ms tile iv acc acc1 hsp hinv
      obtain ⟨hinv2, hext2⟩ := ih acc1 acc2 h hinv1
      exact ⟨hinv2, extendsSt_trans hext1 hext2⟩

theorem run_tile_recinv (env : Env) (mc ms : ℚ) (dr : List (ℤ × ℤ)) (tile : G)
    (acc acc2 : RunAcc) (h : run_tile env mc ms dr tile acc = Except.ok acc2)
    (hinv : ∀ rec ∈ acc.recs, ExtendsSt rec.stAfter acc.st) :
    (∀ rec ∈ acc2.recs, ExtendsSt rec.stAfter acc2.st) ∧ ExtendsSt acc.st acc2.st := by
  cases dr with
  | nil => simp [run_tile] at h
  | cons d0 t =>
    simp only [run_tile] at h
    exact run_ivs_recinv env mc ms tile _ acc acc2 h hinv

theorem run_tiles_recinv (env : Env) (mc ms : ℚ) (dr : List (ℤ × ℤ)) :
    ∀ (tiles : List G) (acc acc2 : RunAcc),
      run_tiles env mc ms dr tiles acc = Except.ok acc2 →
      (∀ rec ∈ acc.recs, ExtendsSt rec.stAfter acc.st) →
      (∀ rec ∈ acc2.recs, ExtendsSt rec.stAfter acc2.st) ∧ ExtendsSt acc.st acc2.st := by
  intro tiles
  induction tiles with
  | nil =>
    intro acc acc2 h hinv
    simp only [run_tiles, Except.ok.injEq] at h
    subst h
    exact ⟨hinv, extendsSt_refl _⟩
  | cons t ts ih =>
    intro acc acc2 h hinv
    simp only [run_tiles] at h
    cases hrt : run_tile env mc ms dr t acc with
    | error e => rw [hrt] at h; simp at h
    | ok acc1 =>
      rw [hrt] at h
      obtain ⟨hinv1, hext1⟩ := run_tile_recinv env mc ms dr t acc acc1 hrt hinv
      obtain ⟨hinv2, hext2⟩ := ih acc1 acc2 h hinv1
      exact ⟨hinv2, extendsSt_trans hext1 hext2⟩

theorem run_aois_recinv (ops : GeomOps G) (env : Env) (mc ms : ℚ) (dr : List (ℤ × ℤ)) :
    ∀ (aois : List G) (acc acc2 : RunAcc),
      run_aois ops env mc ms dr aois acc = Except.ok acc2 →
      (∀ rec ∈ acc.recs, ExtendsSt rec.stAfter acc.st) →
      (∀ rec ∈ acc2.recs, ExtendsSt rec.stAfter acc2.st) ∧ ExtendsSt acc.st acc2.st := by
  intro aois
  induction aois with
  | nil =>
    intro acc acc2 h hinv
    simp only [run_aois, Except.ok.injEq] at h
    subst h
    exact ⟨hinv, extendsSt_refl _⟩
  | cons a more ih =>
    intro acc acc2 h hinv
    simp only [run_aois] at h
    cases hrt : run_tiles env mc ms dr (tiles_for ops a) acc with
    | error e => rw [hrt] at h; simp at h
    | ok acc1 =>
      rw [hrt] at h
      obtain ⟨hinv1, hext1⟩ :=
        run_tiles_recinv env mc ms dr (tiles_for ops a) acc acc1 hrt hinv
      obtain ⟨hinv2, hext2⟩ := ih acc1 acc2 h hinv1
      exact ⟨hinv2, extendsSt_trans hext1 hext2⟩

theorem step_pair_aligned (env : Env) (mc ms : ℚ) (tile : G) (iv : ℤ × ℤ)
    (acc acc2 : RunAcc) (h : step_pair env mc ms tile iv acc = Except.ok acc2)
    (hwfenv : EnvFeaturesWF env) (hal : AlignedSt acc.st) : AlignedSt acc2.st := by
  cases hb : build_filters [tile] [iv] mc ms with
  | error e => simp [step_pair, hb] at h
  | ok v =>
    simp only [step_pair, hb, Except.ok.injEq] at h
    subst h
    exact run_pair_aligned MAX_RETRIES (env.posts acc.cnt) (env.pages acc.cnt) acc.st hal
      (hwfenv acc.cnt)

theorem run_ivs_aligned (env : Env) (mc ms : ℚ) (tile : G) (hwfenv : EnvFeaturesWF env) :
    ∀ (ivs : List (ℤ × ℤ)) (acc acc2 : RunAcc),
      run_ivs env mc ms tile ivs acc = Except.ok acc2 →
      AlignedSt acc.st → AlignedSt acc2.st := by
  intro ivs
  induction ivs with
  | nil =>
    intro acc acc2 h hal
    simp only [run_ivs, Except.ok.injEq] at h
    subst h
    exact hal
  | cons iv rest ih =>
    intro acc acc2 h hal
    simp only [run_ivs] at h
    cases hsp : step_pair env mc ms tile iv acc with
    | error e => rw [hsp] at h; simp at h
    | ok acc1 =>
      rw [hsp] at h
      exact ih acc1 acc2 h (step_pair_aligned env mc ms tile iv acc acc1 hsp hwfenv hal)

theorem run_tile_aligned (env : Env) (mc ms : ℚ) (dr : List (ℤ × ℤ)) (tile : G)
    (hwfenv : EnvFeaturesWF env) (acc acc2 : RunAcc)
    (h : run_tile env mc ms dr tile acc = Except.ok acc2) :
    AlignedSt acc.st → AlignedSt acc2.st := by
  cases dr with
  | nil => simp [run_tile] at h
  | cons d0 t =>
    simp only [run_tile] at h
    exact fun hal => run_ivs_aligned env mc ms tile hwfenv _ acc acc2 h hal

theorem run_tiles_aligned (env : Env) (mc ms : ℚ) (dr : List (ℤ × ℤ))
    (hwfenv : EnvFeaturesWF env) :
    ∀ (tiles : List G) (acc acc2 : RunAcc),
      run_tiles env mc ms dr tiles acc = Except.ok acc2 →
      AlignedSt acc.st → AlignedSt acc2.st := by
  intro tiles
  induction tiles with
  | nil =>
    intro acc acc2 h hal
    simp only [run_tiles, Except.ok.injEq] at h
    subst h
    exact hal
  | cons t ts ih =>
    intro acc acc2 h hal
    simp only [run_tiles] at h
    cases hrt : run_tile env mc ms dr t acc with
    | error e => rw [hrt] at h; simp at h
    | ok acc1 =>
      rw [hrt] at h
      exact ih acc1 acc2 h (run_tile_aligned env mc ms dr t hwfenv acc acc1 hrt hal)

theorem run_aois_aligned (ops : GeomOps G) (env : Env) (mc ms : ℚ) (dr : List (ℤ × ℤ))
    (hwfenv : EnvFeaturesWF env) :
    ∀ (aois : List G) (acc acc2 : RunAcc),
      run_aois ops env mc ms dr aois acc = Except.ok acc2 →
      AlignedSt acc.st → AlignedSt acc2.st := by
  intro aois
  induction aois with
  | nil =>
    intro acc acc2 h hal
    simp only [run_aois, Except.ok.injEq] at h
    subst h
    exact hal
  | cons a more ih =>
    intro acc acc2 h hal
    simp only [run_aois] at h
    cases hrt : run_tiles env mc ms dr (tiles_for ops a) acc with
    | error e => rw [hrt] at h; simp at h
    | ok acc1 =>
      rw [hrt] at h
      exact ih acc1 acc2 h
        (run_tiles_aligned env mc ms dr hwfenv (tiles_for ops a) acc acc1 hrt hal)

/-! ## Concrete evaluation lemmas -/

theorem eval_tiles_for : tiles_for RectOps aoi0 = [aoi0] := by
  unfold tiles_for
  rw [if_neg]
  norm_num [approx_area_km2, RectOps, aoi0, SPATIAL_TILE_AREA_THRESHOLD_KM2]

theorem fetch_total (ops : GeomOps G) (env : Env) (aois : List G)
    (dr : List (ℤ × ℤ)) (mc ms : ℚ) :
    (fetch_planet_data ops env aois dr mc ms).totalRequests =
      aois.length * dr.length := by
  simp only [fetch_planet_data]
  cases run_aois ops env mc ms dr aois ⟨⟨[], [], []⟩, 0, []⟩ with
  | ok acc => rfl
  | error e => rcases e with ⟨e1, acc⟩; rfl

theorem eval_torn_pair :
    run_pair MAX_RETRIES (envTorn.posts 0) (envTorn.pages 0) ⟨[], [], []⟩ =
      (⟨["a", "b"], [], []⟩,
        ⟨1, 1, PairOutcome.errored, ⟨["a", "b"], [], []⟩⟩) := by
  decide

theorem eval_torn_run :
    run_aois RectOps envTorn (1/2) 0 [((0 : ℤ), (0 : ℤ))] [aoi0] ⟨⟨[], [], []⟩, 0, []⟩ =
      Except.ok ⟨⟨["a", "b"], [], []⟩, 1,
        [⟨1, 1, PairOutcome.errored, ⟨["a", "b"], [], []⟩⟩]⟩ := by
  have hsp := step_pair_ok envTorn (1/2) 0 aoi0 ((0 : ℤ), (0 : ℤ)) ⟨⟨[], [], []⟩, 0, []⟩
    (by norm_num) (by norm_num) (by norm_num) (by norm_num)
  dsimp only at hsp
  rw [eval_torn_pair] at hsp
  have htd : tile_dates (0 : ℤ) (0 : ℤ) 30 = [((0 : ℤ), (0 : ℤ))] := by decide
  simp only [run_aois, eval_tiles_for, run_tiles, run_tile, List.getLast,
    TEMPORAL_TILE_DAYS_THRESHOLD, htd, run_ivs, hsp]
  rfl

theorem eval_ok_pair :
    run_pair MAX_RETRIES (envOk.posts 0) (envOk.pages 0) ⟨[], [], []⟩ =
      (⟨["a"], ["ga"], ["pa"]⟩,
        ⟨1, 1, PairOutcome.completed, ⟨["a"], ["ga"], ["pa"]⟩⟩) := by
  decide

theorem eval_ok_run :
    run_aois RectOps envOk (1/2) 0 [((0 : ℤ), (0 : ℤ))] [aoi0] ⟨⟨[], [], []⟩, 0, []⟩ =
      Except.ok ⟨⟨["a"], ["ga"], ["pa"]⟩, 1,
        [⟨1, 1, PairOutcome.completed, ⟨["a"], ["ga"], ["pa"]⟩⟩]⟩ := by
  have hsp := step_pair_ok envOk (1/2) 0 aoi0 ((0 : ℤ), (0 : ℤ)) ⟨⟨[], [], []⟩, 0, []⟩
    (by norm_num) (by norm_num) (by norm_num) (by norm_num)
  dsimp only at hsp
  rw [eval_ok_pair] at hsp
  have htd : tile_dates (0 : ℤ) (0 : ℤ) 30 = [((0 : ℤ), (0 : ℤ))] := by decide
  simp only [run_aois, eval_tiles_for, run_tiles, run_tile, List.getLast,
    TEMPORAL_TILE_DAYS_THRESHOLD, htd, run_ivs, hsp]
  rfl

theorem rectOps_carrier_inter (a b : Rect) :
    RectOps.carrier (RectOps.inter a b) = RectOps.carrier a ∩ RectOps.carrier b := by
  ext q
  simp only [RectOps, Set.mem_setOf_eq, Set.mem_inter_iff, max_le_iff, le_min_iff]
  tauto

theorem envOk_wf : EnvFeaturesWF envOk := by
  intro i pr hpr
  simp only [envOk, List.mem_singleton] at hpr
  subst hpr
  intro fs hfs
  simp only [lastPage, Option.some_inj] at hfs
  subst hfs
  intro f hf
  simp only [List.mem_singleton] at hf
  subst hf
  exact ⟨rfl, rfl, rfl⟩

/-! ## Claim theorems -/

/-- Claim C1 (code bug shown at the failing input): with the full retry
ceiling of `MAX_RETRIES = 5` exhausted by non-2xx responses whose JSON body
carries an `id` member (the endpoint would succeed on attempt 6), the pair
does not report Failed: because `response` is assigned before
`raise_for_status()`, the `response is None` sentinel misses, the failed
response's body id is used as a search id, and the pair completes with
fetched items after the 5 attempts.  For contrast, the same exhaustion
through network-level errors leaves `response` as `None` and the pair is
skipped as the claim demands. -/
theorem c1_retry_exhaustion_divergence :
    (run_pair MAX_RETRIES c1posts [PageResult.page (lastPage [goodFeature])] ⟨[], [], []⟩ =
      (⟨["a"], ["ga"], ["pa"]⟩,
        ⟨5, 1, PairOutcome.completed, ⟨["a"], ["ga"], ["pa"]⟩⟩)) ∧
    (run_pair MAX_RETRIES (fun _ => PostResult.netErr)
        [PageResult.page (lastPage [goodFeature])] ⟨[], [], []⟩ =
      (⟨[], [], []⟩, ⟨5, 0, PairOutcome.skipped, ⟨[], [], []⟩⟩)) :=
  ⟨by decide, by decide⟩

/-- Claim C2: for `start ≤ end` and `max_days ≥ 1`, `tile_dates` returns the
single unchanged interval when the range fits, and otherwise `⌈d/m⌉`
chronologically ordered intervals that start at `start`, have length `m`
except possibly the last, end at `end`, chain day-after-day, and partition
the range with no gaps or overlaps. -/
theorem c2_tile_dates_correct (s e : ℤ) (m : ℕ) (hse : s ≤ e) (hm : 1 ≤ m) :
    TileDatesSpec s e m := by
  constructor
  · intro hle
    unfold tile_dates
    rw [if_pos hle]
  · intro hgt
    have hne : ¬(e - s + 1 ≤ (m : ℤ)) := by omega
    have htd : tile_dates s e m = slice_loop m e s := by
      unfold tile_dates
      rw [if_neg hne]
    refine ⟨?_, ?_, ?_, ?_, ?_, ?_, ?_, ?_⟩
    · rw [htd, slice_loop_length m hm e s hse]
      congr 1
      omega
    · rw [htd, slice_loop_head m e s hse hm, min_eq_left (by omega)]
    · rw [htd]
      exact slice_loop_last m hm e s hse
    · rw [htd]
      exact slice_loop_dropLast m hm e s hse
    · rw [htd]
      intro p hp
      have := slice_loop_mem m hm e s hse p hp
      exact ⟨this.2.1, this.2.2.2⟩
    · rw [htd]
      exact slice_loop_chain m hm e s hse
    · rw [htd]
      exact slice_loop_pairwise m hm e s hse
    · rw [htd]
      exact slice_loop_cover m hm e s hse

/-- Witness for claim C2 at `start = 0`, `end = 6`, `max_days = 3`. -/
theorem c2_tile_dates_correct_witness :
    (0 : ℤ) ≤ 6 ∧ 1 ≤ 3 ∧ TileDatesSpec 0 6 3 :=
  ⟨by norm_num, by norm_num, c2_tile_dates_correct 0 6 3 (by norm_num) (by norm_num)⟩

/-- Claim C3 (code bug shown at the failing input): with one small AOI and
two supplied one-day ranges three days apart, temporal slicing produces one
interval, so the run makes exactly `1` search attempt, while the precomputed
progress total is `len(aois) * len(date_ranges) = 2`: the denominator the
counter is reported against does not equal the number of attempts. -/
theorem c3_progress_total_divergence :
    (fetch_planet_data RectOps envSkip [aoi0] [((0 : ℤ), (0 : ℤ)), ((2 : ℤ), (2 : ℤ))]
      (1/2) 0).requestCount = 1 ∧
    (fetch_planet_data RectOps envSkip [aoi0] [((0 : ℤ), (0 : ℤ)), ((2 : ℤ), (2 : ℤ))]
      (1/2) 0).totalRequests = 2 := by
  obtain ⟨st, hres, hcnt, hrec⟩ := fetch_planet_data_ok RectOps envSkip [aoi0]
    (show [((0 : ℤ), (0 : ℤ)), ((2 : ℤ), (2 : ℤ))].head? = some ((0 : ℤ), (0 : ℤ)) by decide)
    (show [((0 : ℤ), (0 : ℤ)), ((2 : ℤ), (2 : ℤ))].getLast? = some ((2 : ℤ), (2 : ℤ)) by decide)
    (1/2) 0 (by norm_num) (by norm_num) (by norm_num) (by norm_num)
  constructor
  · rw [hcnt]
    simp only [List.map_cons, List.map_nil, List.sum_cons, List.sum_nil, eval_tiles_for]
    decide
  · rw [fetch_total]
    rfl

/-- Claim C4 counterexample: the claim fails as stated.  With a non-empty
AOI list and an empty `date_ranges`, the `date_ranges[0]` subscript raises
`IndexError` and the run aborts; and with `max_cloud = 2` (outside `[0, 1]`,
rejected by the spec-modelled `build_filters`), the filter-construction
exception — raised before the `try:` block — escapes and aborts the run. -/
theorem c4_no_escape_counterexample :
    (fetch_planet_data RectOps envSkip [aoi0] ([] : List (ℤ × ℤ)) (1/2) 0).result =
      Except.error RunError.indexError ∧
    (fetch_planet_data RectOps envSkip [aoi0] [((0 : ℤ), (0 : ℤ))] 2 0).result =
      Except.error RunError.invalidRange := by
  constructor
  · simp only [fetch_planet_data, run_aois, eval_tiles_for, run_tiles, run_tile]
  · have hbf : build_filters [aoi0] [((0 : ℤ), (0 : ℤ))] (2 : ℚ) 0 =
        Except.error RunError.invalidRange := by
      unfold build_filters
      rw [if_pos]
      norm_num
    have htd : tile_dates (0 : ℤ) (0 : ℤ) 30 = [((0 : ℤ), (0 : ℤ))] := by decide
    simp only [fetch_planet_data, run_aois, eval_tiles_for, run_tiles, run_tile,
      List.getLast, TEMPORAL_TILE_DAYS_THRESHOLD, htd, run_ivs, step_pair, hbf]

/-- Claim C4 (amended): for every input with a non-empty date-range list and
filter parameters accepted by filter construction (`max_cloud ∈ [0, 1]`,
`min_sun_angle ∈ [-90, 90]`), no exception raised while processing a
tile-by-interval pair escapes `fetch_planet_data`: the run completes
normally for every network behaviour and returns the gathered inventory (an
empty inventory being a valid successful outcome). -/
theorem c4_no_escape_amended (ops : GeomOps G) (env : Env) (aois : List G)
    (dr : List (ℤ × ℤ)) (mc ms : ℚ) (hne : dr ≠ [])
    (h0 : 0 ≤ mc) (h1 : mc ≤ 1) (h2 : -90 ≤ ms) (h3 : ms ≤ 90) :
    ∃ st, (fetch_planet_data ops env aois dr mc ms).result = Except.ok st := by
  obtain ⟨st, hres, _, _⟩ := fetch_planet_data_ok ops env aois
    (List.head?_eq_head hne) (List.getLast?_eq_getLast dr hne) mc ms h0 h1 h2 h3
  exact ⟨st, hres⟩

/-- Witness for the amended claim C4: an environment whose every POST fails
at network level — every pair is skipped and the run still returns normally
with an empty inventory. -/
theorem c4_no_escape_amended_witness :
    ([((0 : ℤ), (0 : ℤ))] ≠ ([] : List (ℤ × ℤ))) ∧ (0 : ℚ) ≤ 1/2 ∧
    ∃ st, (fetch_planet_data RectOps envSkip [aoi0] [((0 : ℤ), (0 : ℤ))]
      (1/2) 0).result = Except.ok st :=
  ⟨by simp, by norm_num,
    c4_no_escape_amended RectOps envSkip [aoi0] [((0 : ℤ), (0 : ℤ))] (1/2) 0
      (by simp) (by norm_num) (by norm_num) (by norm_num) (by norm_num)⟩

/-- Claim C5: for a pair whose submission succeeds (2xx with an id on the
first attempt) and whose result set is pages `p1..pn` where exactly `pn`
lacks a `_links._next` cursor, the items appended to `ids`, `geometries` and
`properties` are the concatenation of the pages' features in server order,
passed through unmodified, and exactly `n` page requests are made before the
pair completes. -/
theorem c5_pagination_order (posts : ℕ → PostResult) (sid : String)
    (goods : List Page) (st : Inventory)
    (hpost : posts 0 = PostResult.resp true (some sid))
    (hchain : GoodChain goods) (hwf : ∀ p ∈ goods, WFPage p) :
    PaginationOrderProp posts goods st := by
  have hretry : retry_go posts none 0 MAX_RETRIES = (some (true, some sid), 1) := by
    simp [MAX_RETRIES, retry_go, hpost]
  have hpl := page_loop_good_chain goods st hchain hwf
  refine ⟨?_, (appendPages_fields goods st).1, (appendPages_fields goods st).2.1,
    (appendPages_fields goods st).2.2⟩
  simp only [run_pair, hretry, hpl]
  rfl

/-- Witness for claim C5: a two-page result set, one well-formed feature per
page, the first page carrying a `_next` cursor. -/
theorem c5_pagination_order_witness :
    (envOk.posts 0) 0 = PostResult.resp true (some "s") ∧
    GoodChain [midPage [goodFeature], lastPage [goodFeature]] ∧
    PaginationOrderProp (envOk.posts 0) [midPage [goodFeature], lastPage [goodFeature]]
      ⟨[], [], []⟩ := by
  have hchain : GoodChain [midPage [goodFeature], lastPage [goodFeature]] :=
    ⟨⟨"u", rfl, by decide⟩, rfl⟩
  have hwf : ∀ p ∈ [midPage [goodFeature], lastPage [goodFeature]], WFPage p := by
    intro p hp
    rcases List.mem_cons.1 hp with rfl | hp2
    · refine ⟨[goodFeature], rfl, ?_⟩
      intro f hf
      rw [List.mem_singleton.1 hf]
      exact ⟨rfl, rfl, rfl⟩
    · rcases List.mem_singleton.1 hp2 with rfl
      refine ⟨[goodFeature], rfl, ?_⟩
      intro f hf
      rw [List.mem_singleton.1 hf]
      exact ⟨rfl, rfl, rfl⟩
  exact ⟨rfl, hchain,
    c5_pagination_order (envOk.posts 0) "s" [midPage [goodFeature], lastPage [goodFeature]]
      ⟨[], [], []⟩ rfl hchain hwf⟩

/-- Claim C6: for every AOI whose bounding-box area under the flat
approximation is at or below the spatial threshold, the tiling decision
returns the single tile equal to the AOI itself — no spatial tiling. -/
theorem c6_small_aoi_single_tile (ops : GeomOps G) (aoi : G)
    (h : approx_area_km2 ops aoi ≤ SPATIAL_TILE_AREA_THRESHOLD_KM2) :
    tiles_for ops aoi = [aoi] := by
  unfold tiles_for
  rw [if_neg (not_lt.2 h)]

/-- Witness for claim C6 at the unit-square AOI (about 12321 km²). -/
theorem c6_small_aoi_single_tile_witness :
    approx_area_km2 RectOps aoi0 ≤ SPATIAL_TILE_AREA_THRESHOLD_KM2 ∧
    tiles_for RectOps aoi0 = [aoi0] :=
  ⟨by norm_num [approx_area_km2, RectOps, aoi0, SPATIAL_TILE_AREA_THRESHOLD_KM2],
    c6_small_aoi_single_tile RectOps aoi0
      (by norm_num [approx_area_km2, RectOps, aoi0, SPATIAL_TILE_AREA_THRESHOLD_KM2])⟩

/-- Claim C7: for every AOI, every positive tile size, and any geometry
model whose intersection meets set intersection on carriers, every element
of `tile_aoi` is the intersection of one grid cell with the AOI, has
strictly positive area, and does not extend beyond the AOI; zero-area
intersections never appear in the result. -/
theorem c7_tile_aoi_tiles (ops : GeomOps G) (aoi : G) (ts : ℚ) (_hts : 0 < ts)
    (hcar : ∀ a b, ops.carrier (ops.inter a b) = ops.carrier a ∩ ops.carrier b) :
    TileAoiSpec ops aoi ts := by
  intro t ht
  simp only [tile_aoi, List.mem_flatMap, List.mem_range] at ht
  obtain ⟨i, hi, j, hj, hmem⟩ := ht
  by_cases hpos : 0 < ops.area (ops.inter
    (ops.box ((ops.bounds aoi).1 + i * ts) ((ops.bounds aoi).2.1 + j * ts)
      (min ((ops.bounds aoi).1 + (i + 1) * ts) (ops.bounds aoi).2.2.1)
      (min ((ops.bounds aoi).2.1 + (j + 1) * ts) (ops.bounds aoi).2.2.2)) aoi)
  · rw [if_pos hpos, List.mem_singleton] at hmem
    subst hmem
    refine ⟨⟨i, j, hi, hj, rfl⟩, hpos, ?_⟩
    rw [hcar]
    exact Set.inter_subset_right
  · rw [if_neg hpos] at hmem
    exact absurd hmem (List.not_mem_nil t)

/-- Witness for claim C7: the rectangle model on the unit square with 1°
cells. -/
theorem c7_tile_aoi_tiles_witness :
    (0 : ℚ) < 1 ∧ TileAoiSpec RectOps aoi0 1 :=
  ⟨by norm_num, c7_tile_aoi_tiles RectOps aoi0 1 (by norm_num) rectOps_carrier_inter⟩

/-- Claim C8 counterexample: the claim fails as stated.  One page whose
second feature has `id` and `properties` but no `geometry` key: the ids
comprehension completes and extends `ids` by two entries, the geometry
comprehension raises, and the run returns with `ids` of length 2 against
empty `geometries` and `properties`. -/
theorem c8_alignment_counterexample :
    ¬ ∀ st : Inventory,
        (fetch_planet_data RectOps envTorn [aoi0] [((0 : ℤ), (0 : ℤ))] (1/2) 0).result =
          Except.ok st → st.ids.length = st.geometries.length := by
  intro hall
  have hres : (fetch_planet_data RectOps envTorn [aoi0] [((0 : ℤ), (0 : ℤ))]
      (1/2) 0).result = Except.ok ⟨["a", "b"], [], []⟩ := by
    simp only [fetch_planet_data, eval_torn_run]
  have := hall _ hres
  simp at this

/-- Claim C8 (amended): provided every feature of every decoded page carries
`id`, `geometry` and `properties` keys, the three sequences returned by
`fetch_planet_data` have equal length and are the projections of one list of
fetched features — the `i`-th entries all come from the same Item — even
when some pairs fail. -/
theorem c8_alignment_amended (ops : GeomOps G) (env : Env) (aois : List G)
    (dr : List (ℤ × ℤ)) (mc ms : ℚ) (st : Inventory)
    (hwfenv : EnvFeaturesWF env)
    (hres : (fetch_planet_data ops env aois dr mc ms).result = Except.ok st) :
    st.ids.length = st.geometries.length ∧
    st.geometries.length = st.properties.length ∧
    AlignedSt st := by
  cases hrun : run_aois ops env mc ms dr aois ⟨⟨[], [], []⟩, 0, []⟩ with
  | error e =>
    rcases e with ⟨e1, acc⟩
    simp [fetch_planet_data, hrun] at hres
  | ok acc2 =>
    have hal : AlignedSt acc2.st :=
      run_aois_aligned ops env mc ms dr hwfenv aois _ acc2 hrun ⟨[], rfl, rfl, rfl⟩
    simp only [fetch_planet_data, hrun, Except.ok.injEq] at hres
    subst hres
    obtain ⟨fs, a1, a2, a3⟩ := hal
    have l1 := optMap_length _ fs _ a1
    have l2 := optMap_length _ fs _ a2
    have l3 := optMap_length _ fs _ a3
    exact ⟨by omega, by omega, ⟨fs, a1, a2, a3⟩⟩

/-- Witness for the amended claim C8: a run against an environment whose
single page holds one fully-formed feature. -/
theorem c8_alignment_amended_witness :
    EnvFeaturesWF envOk ∧
    ((⟨["a"], ["ga"], ["pa"]⟩ : Inventory).ids.length =
        (⟨["a"], ["ga"], ["pa"]⟩ : Inventory).geometries.length ∧
      (⟨["a"], ["ga"], ["pa"]⟩ : Inventory).geometries.length =
        (⟨["a"], ["ga"], ["pa"]⟩ : Inventory).properties.length ∧
      AlignedSt ⟨["a"], ["ga"], ["pa"]⟩) := by
  have hres : (fetch_planet_data RectOps envOk [aoi0] [((0 : ℤ), (0 : ℤ))]
      (1/2) 0).result = Except.ok ⟨["a"], ["ga"], ["pa"]⟩ := by
    simp only [fetch_planet_data, eval_ok_run]
  exact ⟨envOk_wf,
    c8_alignment_amended RectOps envOk [aoi0] [((0 : ℤ), (0 : ℤ))] (1/2) 0
      ⟨["a"], ["ga"], ["pa"]⟩ envOk_wf hres⟩

/-- Claim C9: the intervals queried are obtained by slicing the single span
from the first range's start to the last range's end — intermediate range
boundaries are ignored (the run is unchanged by replacing the list with any
other sharing first and last elements), every day of the span (including
days between disjoint supplied ranges) falls in a queried interval, and the
run performs one pair per tile per interval of that slicing. -/
theorem c9_date_span_slicing (ops : GeomOps G) (env : Env) (aois : List G)
    (mc ms : ℚ) (dr dr2 : List (ℤ × ℤ)) (d0 dl : ℤ × ℤ)
    (hh : dr.head? = some d0) (hl : dr.getLast? = some dl)
    (hh2 : dr2.head? = some d0) (hl2 : dr2.getLast? = some dl)
    (hspan : d0.1 ≤ dl.2)
    (h0 : 0 ≤ mc) (h1 : mc ≤ 1) (h2 : -90 ≤ ms) (h3 : ms ≤ 90) :
    SpanSliceProp ops env aois mc ms dr dr2 d0 dl := by
  refine ⟨?_, ?_, ?_, ?_⟩
  · have hc := run_aois_congr ops env mc ms hh hl hh2 hl2 aois ⟨⟨[], [], []⟩, 0, []⟩
    simp only [fetch_planet_data]
    rw [hc]
    cases run_aois ops env mc ms dr2 aois ⟨⟨[], [], []⟩, 0, []⟩ with
    | ok acc2 => exact ⟨rfl, rfl, rfl⟩
    | error e => rcases e with ⟨e1, acc⟩; exact ⟨rfl, rfl, rfl⟩
  · intro x hx1 hx2
    by_cases hcase : dl.2 - d0.1 + 1 ≤ ((TEMPORAL_TILE_DAYS_THRESHOLD : ℕ) : ℤ)
    · have htd : tile_dates d0.1 dl.2 TEMPORAL_TILE_DAYS_THRESHOLD = [(d0.1, dl.2)] := by
        unfold tile_dates
        rw [if_pos hcase]
      rw [htd]
      exact ⟨(d0.1, dl.2), List.mem_singleton_self _, hx1, hx2⟩
    · have htd : tile_dates d0.1 dl.2 TEMPORAL_TILE_DAYS_THRESHOLD =
          slice_loop TEMPORAL_TILE_DAYS_THRESHOLD dl.2 d0.1 := by
        unfold tile_dates
        rw [if_neg hcase]
      rw [htd]
      exact (slice_loop_cover TEMPORAL_TILE_DAYS_THRESHOLD (by decide) dl.2 d0.1 hspan x).1
        ⟨hx1, hx2⟩
  · obtain ⟨st, hres, _, _⟩ :=
      fetch_planet_data_ok ops env aois hh hl mc ms h0 h1 h2 h3
    exact ⟨st, hres⟩
  · obtain ⟨st, _, _, hrec⟩ :=
      fetch_planet_data_ok ops env aois hh hl mc ms h0 h1 h2 h3
    exact hrec

/-- Witness for claim C9: two disjoint one-day-apart ranges versus the same
list with an inserted middle range. -/
theorem c9_date_span_slicing_witness :
    ([((0 : ℤ), (1 : ℤ)), ((10 : ℤ), (11 : ℤ))].head? = some ((0 : ℤ), (1 : ℤ))) ∧
    ([((0 : ℤ), (1 : ℤ)), ((10 : ℤ), (11 : ℤ))].getLast? = some ((10 : ℤ), (11 : ℤ))) ∧
    SpanSliceProp RectOps envSkip [aoi0] (1/2) 0
      [((0 : ℤ), (1 : ℤ)), ((10 : ℤ), (11 : ℤ))]
      [((0 : ℤ), (1 : ℤ)), ((5 : ℤ), (6 : ℤ)), ((10 : ℤ), (11 : ℤ))]
      ((0 : ℤ), (1 : ℤ)) ((10 : ℤ), (11 : ℤ)) :=
  ⟨by decide, by decide,
    c9_date_span_slicing RectOps envSkip [aoi0] (1/2) 0
      [((0 : ℤ), (1 : ℤ)), ((10 : ℤ), (11 : ℤ))]
      [((0 : ℤ), (1 : ℤ)), ((5 : ℤ), (6 : ℤ)), ((10 : ℤ), (11 : ℤ))]
      ((0 : ℤ), (1 : ℤ)) ((10 : ℤ), (11 : ℤ))
      (by decide) (by decide) (by decide) (by decide) (by decide)
      (by norm_num) (by norm_num) (by norm_num) (by norm_num)⟩

/-- Claim C10: mid-pagination failure keeps already-appended items.  Walking
`goods` fully-processed pages and then hitting a fetch error leaves the
accumulators extended by exactly those pages' entries, ignoring the rest of
the trace; and whatever the accumulators hold at the end of any pair of a
run is still present, in place, in what `fetch_planet_data` returns. -/
theorem c10_kept_items (st : Inventory) (goods : List Page) (rest : List PageResult)
    (hwf : ∀ p ∈ goods, WFPage p ∧ HasNext p) :
    KeptItemsProp st goods rest := by
  constructor
  · exact page_loop_raise goods st rest hwf
  · intro H ops env aois dr mc ms stF rec hres hmem
    cases hrun : run_aois ops env mc ms dr aois ⟨⟨[], [], []⟩, 0, []⟩ with
    | error e =>
      rcases e with ⟨e1, acc⟩
      simp [fetch_planet_data, hrun] at hres
    | ok acc2 =>
      obtain ⟨hinv, _⟩ := run_aois_recinv ops env mc ms dr aois _ acc2 hrun
        (by intro r hr; simp at hr)
      simp only [fetch_planet_data, hrun, Except.ok.injEq] at hres hmem
      subst hres
      exact hinv rec hmem

/-- Witness for claim C10: one fully-processed page with a next cursor
followed by a fetch error. -/
theorem c10_kept_items_witness :
    (∀ p ∈ [midPage [goodFeature]], WFPage p ∧ HasNext p) ∧
    KeptItemsProp ⟨[], [], []⟩ [midPage [goodFeature]] [] := by
  have hwf : ∀ p ∈ [midPage [goodFeature]], WFPage p ∧ HasNext p := by
    intro p hp
    rcases List.mem_singleton.1 hp with rfl
    refine ⟨⟨[goodFeature], rfl, ?_⟩, ⟨"u", rfl, by decide⟩⟩
    intro f hf
    rw [List.mem_singleton.1 hf]
    exact ⟨rfl, rfl, rfl⟩
  exact ⟨hwf, c10_kept_items ⟨[], [], []⟩ [midPage [goodFeature]] [] hwf⟩
